import Mathlib

/-!
A verification development for the "History Studio" backend and client helpers.

The definitions below are a shallow embedding of the JavaScript/TypeScript
source: `server/index.js` (AI gateway with model fallback, sync store,
upload store, auth guard, context-block serialization), `src/App.tsx`
(setup-response JSON extraction), and the `useUndoRedo` hook.

Modelling conventions:
- JSON / JavaScript values are the inductive `JVal`; JSON numbers are
  modelled as integers (the claims under study only exercise integral
  numerals and strings).
- `undefined` at an API boundary is modelled as `Option.none`.
- Machine time (`Date.now()`, `new Date().toISOString()`) is modelled as a
  `Nat` request parameter; an ISO-8601 timestamp is order-isomorphic to its
  millisecond value, so a stored timestamp is modelled as `JVal.num` of the
  server time at the write.
- Filesystem effects are modelled by explicit state passing; a
  `writeFileSync` that fails is modelled as leaving the previous file intact
  (the specification's whole-file-replacement reading).
-/

set_option maxRecDepth 4000

/-- JSON / JavaScript runtime values. -/
inductive JVal where
  | null
  | bool (b : Bool)
  | num (n : Int)
  | str (s : String)
  | arr (elems : List JVal)
  | obj (fields : List (String × JVal))

/-- JavaScript truthiness of a defined value (`undefined` is handled by
`Option` at each use site). -/
def jsTruthy : JVal → Bool
  | .null => false
  | .bool b => b
  | .num n => n != 0
  | .str s => s != ""
  | .arr _ => true
  | .obj _ => true

/-- JavaScript `typeof` for a defined value. -/
def jsTypeof : JVal → String
  | .null => "object"
  | .bool _ => "boolean"
  | .num _ => "number"
  | .str _ => "string"
  | .arr _ => "object"
  | .obj _ => "object"

/-- JavaScript `a || b` on optional strings: `undefined` and `""` are falsy. -/
def jsOr (a b : Option String) : Option String :=
  match a with
  | some s => if s = "" then b else some s
  | none => b

/-- JavaScript `String.prototype.trim()`: strip leading and trailing
whitespace (written over the character list so that it reduces in the
kernel). -/
def jsTrim (s : String) : String :=
  String.mk (((s.toList.dropWhile Char.isWhitespace).reverse.dropWhile
    Char.isWhitespace).reverse)

/-- Property read `v[key]` for the string keys used by the source
(later bindings of a duplicated key win, as for JavaScript objects). -/
def jsGet (v : JVal) (key : String) : Option JVal :=
  match v with
  | .obj fields => (fields.reverse.find? (fun p => p.1 == key)).map (fun p => p.2)
  | _ => none

/-- Object update as performed by a spread `\x7b...fields, key: v\x7d`:
an existing key keeps its position but gets the new value, a new key is
appended. -/
def objSet (fields : List (String × JVal)) (key : String) (v : JVal) :
    List (String × JVal) :=
  if fields.any (fun p => p.1 == key) then
    fields.map (fun p => if p.1 == key then (key, v) else p)
  else fields ++ [(key, v)]

/-- Own enumerable properties collected by an object spread `\x7b...v\x7d`:
objects contribute their fields, arrays and strings their indexed elements,
primitives nothing. -/
def spreadFields : JVal → List (String × JVal)
  | .obj fs => fs
  | .arr xs => xs.enum.map (fun p => (toString p.1, p.2))
  | .str s => s.toList.enum.map (fun p => (toString p.1, JVal.str (String.singleton p.2)))
  | _ => []

/-! ## AI gateway: model-error classification (`isModelError`, lines 87-97) -/

/-- Does `needle` occur contiguously in `hay`? (substring test used for the
regular expression `/does not exist/i` after lowercasing). -/
def containsSeq (needle hay : List Char) : Bool :=
  hay.tails.any (fun t => needle.isPrefixOf t)

/-- `dotStarThen needle l` holds when `l` starts with a (possibly empty)
run of non-newline characters followed by `needle`: the semantics of the
regular-expression fragment `.*needle` without the `s` flag, anchored at
the current position. -/
def dotStarThen (needle : List Char) : List Char → Bool
  | [] => needle.isEmpty
  | c :: cs => needle.isPrefixOf (c :: cs) || (c != '\n' && dotStarThen needle cs)

/-- Test of `/model.*not found/i` against a message. -/
def regexModelNotFound (msg : String) : Bool :=
  (msg.toList.map Char.toLower).tails.any
    (fun t => ("model".toList).isPrefixOf t && dotStarThen ("not found".toList) (t.drop 5))

/-- Test of `/does not exist/i` against a message. -/
def regexDoesNotExist (msg : String) : Bool :=
  containsSeq ("does not exist".toList) (msg.toList.map Char.toLower)

/-- The observable shape of an error thrown by a chat-completion attempt:
`error?.status`, `error?.error?.code`, `error?.code`, `error?.error?.message`,
`error?.message`. -/
structure ApiError where
  status : Option Nat
  innerCode : Option String
  code : Option String
  innerMessage : Option String
  message : Option String

/-- `error?.error?.code || error?.code` (line 89). -/
def apiErrorCode (e : ApiError) : Option String := jsOr e.innerCode e.code

/-- `error?.error?.message || error?.message || ''` (line 90). -/
def apiErrorMessage (e : ApiError) : String := (jsOr e.innerMessage e.message).getD ""

/-- `isModelError` (lines 87-97). -/
def isModelError (e : ApiError) : Bool :=
  e.status == some 404 ||
  apiErrorCode e == some "model_not_found" ||
  regexModelNotFound (apiErrorMessage e) ||
  regexDoesNotExist (apiErrorMessage e)

/-! ## AI gateway: candidate list and fallback loop (lines 78-133) -/

/-- The fixed fallback list (line 78). -/
def modelFallbacks : List String := ["gpt-4o-mini", "gpt-4o", "gpt-4.1-mini"]

/-- `[...new Set(candidates)]`: remove duplicates keeping the first
occurrence of each element, in order. -/
def jsSetDedup : List String → List String
  | [] => []
  | x :: xs => x :: (jsSetDedup xs).filter (fun y => y != x)

/-- `buildModelList` (lines 79-85); `preferred` is `process.env.OPENAI_MODEL`
(`none` when unset; `filter(Boolean)` drops an empty string). -/
def buildModelList (preferred : Option String) : List String :=
  jsSetDedup ((preferred.toList ++ modelFallbacks).filter (fun s => s != ""))

/-- The observable part of a chat completion:
`completion.choices?.[0]?.message?.content` (missing pieces collapse to
`none`). -/
structure Completion where
  content : Option String

/-- `completion.choices?.[0]?.message?.content?.trim() ?? ''` (line 131). -/
def completionText (c : Completion) : String := (c.content.map jsTrim).getD ""

/-- `new Error('No available model')` (line 128). -/
def noAvailableModelError : ApiError :=
  { status := none, innerCode := none, code := none, innerMessage := none,
    message := some "No available model" }

/-- `new Error('Missing OPENAI_API_KEY')` (line 101). -/
def missingKeyError : ApiError :=
  { status := none, innerCode := none, code := none, innerMessage := none,
    message := some "Missing OPENAI_API_KEY" }

/-- The `for (const model of models)` loop of `callOpenAi` (lines 108-129),
instrumented with the list of models actually attempted. `attempt` is the
provider: the outcome of one `client.chat.completions.create` call per
model. Returns the attempted models in order together with the result
(`.ok (text, modelUsed)` on success, the propagated error otherwise). -/
def callOpenAiGo (attempt : String → Except ApiError Completion) :
    List String → Option ApiError → List String × Except ApiError (String × String)
  | [], lastError => ([], .error (lastError.getD noAvailableModelError))
  | m :: rest, lastError =>
    match attempt m with
    | .ok c => ([m], .ok (completionText c, m))
    | .error e =>
      if isModelError e then
        ((m :: (callOpenAiGo attempt rest (some e)).1),
          (callOpenAiGo attempt rest (some e)).2)
      else ([m], .error e)

/-- `callOpenAi` (lines 99-133): fail fast without a client, otherwise run
the fallback loop over `buildModelList`. -/
def callOpenAi (hasClient : Bool) (attempt : String → Except ApiError Completion)
    (preferred : Option String) : List String × Except ApiError (String × String) :=
  if hasClient then callOpenAiGo attempt (buildModelList preferred) none
  else ([], .error missingKeyError)

/-! ## Sync store and auth guard (lines 24-76, 218-260) -/

/-- An HTTP response: status code and JSON body. -/
structure SyncResponse where
  status : Nat
  body : JVal

/-- The request headers consulted by the auth guard. -/
structure Headers where
  authorization : Option String
  xSyncToken : Option String

/-- `getAuthToken` (lines 34-40). -/
def getAuthToken (h : Headers) : Option String :=
  let header := h.authorization.getD ""
  if ("Bearer ".toList).isPrefixOf header.toList then
    some (String.mk (header.toList.drop 7))
  else h.xSyncToken

/-- The decision taken by `requireSyncAuth` (lines 42-53): `true` means
`next()` runs (the handler executes), `false` means a 401 is sent.
`syncToken = none` models an unset `SYNC_TOKEN`; an empty string is falsy
in `if (!syncToken)` and also opens the gate. -/
def authAllows (syncToken : Option String) (h : Headers) : Bool :=
  match syncToken with
  | none => true
  | some secret =>
    if secret = "" then true
    else
      match getAuthToken h with
      | some token => token != "" && token == secret
      | none => false

/-- The 401 response produced by `requireSyncAuth`. -/
def unauthorizedResponse : SyncResponse :=
  { status := 401, body := .obj [("error", .str "Unauthorized")] }

/-- A route guarded by `requireSyncAuth`: when the gate denies, the handler
body never runs and the state (sync file, uploads, ...) is untouched. -/
def gated {σ : Type} (syncToken : Option String) (h : Headers)
    (handler : σ → SyncResponse × σ) (s : σ) : SyncResponse × σ :=
  if authAllows syncToken h then handler s else (unauthorizedResponse, s)

/-- The sync file as seen by one request: missing, unreadable-or-unparseable,
or holding a parsed JSON value. -/
inductive FileState where
  | absent
  | unreadable
  | stored (v : JVal)

/-- The placeholder document `\x7b updatedAt: null \x7d`. -/
def placeholderSync : JVal := .obj [("updatedAt", .null)]

/-- `readSyncData` (lines 55-67): a missing file and a failed read or parse
both yield the placeholder; a parsed value is returned only when it is a
truthy `typeof 'object'` value. -/
def readSyncData : FileState → JVal
  | .absent => placeholderSync
  | .unreadable => placeholderSync
  | .stored v => if jsTypeof v == "object" && jsTruthy v then v else placeholderSync

/-- `writeSyncData` (lines 69-76): the stored document is
`\x7b ...payload, updatedAt: now \x7d` (the server-assigned time wins). -/
def writeSyncData (payload : JVal) (now : Nat) : JVal :=
  .obj (objSet (spreadFields payload) "updatedAt" (.num now))

/-- `GET /api/sync` handler body (lines 218-220). -/
def getSyncHandler (file : FileState) : SyncResponse × FileState :=
  ({ status := 200, body := readSyncData file }, file)

/-- `POST /api/sync` handler body (lines 222-234). `body` is the parsed
request body (`none` = `undefined`), `now` the server time of this request,
`diskOk` whether `fs.writeFileSync` succeeds (a failed write leaves the
previous file intact). -/
def postSyncHandler (body : Option JVal) (now : Nat) (diskOk : Bool)
    (file : FileState) : SyncResponse × FileState :=
  match body with
  | none => ({ status := 400, body := .obj [("error", .str "Invalid payload")] }, file)
  | some b =>
    if jsTruthy b && jsTypeof b == "object" then
      if diskOk then
        let stored := writeSyncData b now
        ({ status := 200,
           body := .obj [("ok", .bool true),
                         ("updatedAt", (jsGet stored "updatedAt").getD .null)] },
          .stored stored)
      else
        ({ status := 500, body := .obj [("error", .str "Failed to write sync data")] }, file)
    else ({ status := 400, body := .obj [("error", .str "Invalid payload")] }, file)

/-! ## Upload store (lines 236-260) -/

/-- JavaScript `\w` without the unicode flag: `[A-Za-z0-9_]`. -/
def isWordChar (c : Char) : Bool := c.isAlpha || c.isDigit || c == '_'

/-- One character of `replace(/[^\w.-]/g, '_')`. -/
def sanitizeChar (c : Char) : Char :=
  if isWordChar c || c == '.' || c == '-' then c else '_'

/-- `String(fileName).replace(/[^\w.-]/g, '_') || 'upload'` (line 242). -/
def safeBaseName (fileName : String) : String :=
  let s := String.mk (fileName.toList.map sanitizeChar)
  if s = "" then "upload" else s

/-- The stored name `Date.now() + '-' + safeBase` (line 243). -/
def uniqueUploadName (now : Nat) (fileName : String) : String :=
  toString now ++ "-" ++ safeBaseName fileName

/-- A relative name escapes its directory when it contains a path separator
or is empty, `.` or `..`; `path.join(uploadsDir, name)` then resolves
outside (or at) the uploads directory. -/
def escapesDir (name : String) : Bool :=
  name.toList.contains '/' || name.toList.contains '\\' ||
  name == "" || name == "." || name == ".."

/-- Characters the specification allows in a stored upload name:
`[A-Za-z0-9_.-]`. -/
def isAllowedUploadChar (c : Char) : Bool :=
  isWordChar c || c == '.' || c == '-'

/-- `POST /api/upload` handler body (lines 236-260), restricted to the
declared request shape (`fileName`, `data` strings; `none` = missing).
The uploads directory is modelled as the list of stored names; base64
decoding and the byte size of the payload are not modelled (no claim
mentions them), and neither are the `fileType` echo fields. -/
def postUploadHandler (fileName data : Option String) (now : Nat) (diskOk : Bool)
    (uploads : List String) : SyncResponse × List String :=
  match fileName, data with
  | some fn, some d =>
    if fn = "" || d = "" then
      ({ status := 400, body := .obj [("error", .str "Missing file payload")] }, uploads)
    else
      let name := uniqueUploadName now fn
      if diskOk then
        ({ status := 200,
           body := .obj [("url", .str ("/uploads/" ++ name)),
                         ("fileName", .str (safeBaseName fn))] },
          uploads ++ [name])
      else ({ status := 500, body := .obj [("error", .str "Failed to store file")] }, uploads)
  | _, _ => ({ status := 400, body := .obj [("error", .str "Missing file payload")] }, uploads)

/-! ## Context-block serialization (`buildContextBlock`, lines 156-169) -/

/-- The context fields; `none` models an absent (`undefined`/`null`) field. -/
structure AiContext where
  kind : Option String
  scope : Option String
  title : Option String
  range : Option String
  focus : Option String
  summary : Option String
  prompt : Option String
  draft : Option String
  readingText : Option String

/-- One conditional entry `field ? 'Label: ' + field : null`. -/
def optLine (label : String) (value : Option String) : Option String :=
  match value with
  | some s => if s = "" then none else some (label ++ s)
  | none => none

/-- The nine-entry array built by `buildContextBlock` before filtering. -/
def contextEntries (c : AiContext) : List (Option String) :=
  [ some ("Kind: " ++ c.kind.getD "unknown"),
    some ("Scope: " ++ c.scope.getD "summary"),
    some ("Title: " ++ c.title.getD "Untitled"),
    some ("Range: " ++ c.range.getD "n/a"),
    optLine "Focus: " c.focus,
    optLine "Summary: " c.summary,
    optLine "Prompt: " c.prompt,
    optLine "Draft: " c.draft,
    optLine "Reading text: " c.readingText ]

/-- `.filter(Boolean)`: drop the `null` entries (and any empty string). -/
def contextLines (c : AiContext) : List String :=
  ((contextEntries c).filterMap id).filter (fun s => s != "")

/-- `buildContextBlock`: the filtered entries joined with newlines. -/
def buildContextBlock (c : AiContext) : String :=
  String.intercalate "\n" (contextLines c)

/-! ## `useUndoRedo` hook (src/hooks, part_000) -/

/-- The hook's state: the history array and the current index. -/
structure UndoRedoState (T : Type) where
  history : List T
  index : Nat

/-- Initial state `useState([initialState])`, `useState(0)`. -/
def urInit {T : Type} (initialState : T) : UndoRedoState T := ⟨[initialState], 0⟩

/-- `setState` (lines 19-36): truncate the future (`newHistory =
history.slice(0, index + 1)` plus the pushed value), then cap at 50 entries
by shifting the oldest. -/
def urSetState {T : Type} (s : UndoRedoState T) (value : T) : UndoRedoState T :=
  if (s.history.take (s.index + 1) ++ [value]).length > 50 then
    ⟨(s.history.take (s.index + 1) ++ [value]).tail,
     (s.history.take (s.index + 1) ++ [value]).tail.length - 1⟩
  else
    ⟨s.history.take (s.index + 1) ++ [value],
     (s.history.take (s.index + 1) ++ [value]).length - 1⟩

/-- `undo` (lines 38-42). -/
def urUndo {T : Type} (s : UndoRedoState T) : UndoRedoState T :=
  if 0 < s.index then ⟨s.history, s.index - 1⟩ else s

/-- `redo` (lines 44-48). -/
def urRedo {T : Type} (s : UndoRedoState T) : UndoRedoState T :=
  if s.index < s.history.length - 1 then ⟨s.history, s.index + 1⟩ else s

/-- `reset` (lines 50-53). -/
def urReset {T : Type} (initialState : T) : UndoRedoState T := ⟨[initialState], 0⟩

/-- `canUndo: index > 0`. -/
def urCanUndo {T : Type} (s : UndoRedoState T) : Bool := 0 < s.index

/-- `canRedo: index < history.length - 1`. -/
def urCanRedo {T : Type} (s : UndoRedoState T) : Bool := s.index < s.history.length - 1

/-- `state = history[index]`. -/
def urState {T : Type} (s : UndoRedoState T) : Option T := s.history[s.index]?

/-- The hook's intended invariant: the index points into the history and the
history is bounded by 50 entries. -/
def urInv {T : Type} (s : UndoRedoState T) : Prop :=
  s.index < s.history.length ∧ s.history.length ≤ 50

/-! ## Setup-response parser (src/App.tsx, `extractJsonObject` /
`parsePhaseSetup`)

`JSON.parse` is modelled by a fueled recursive-descent parser producing a
`JVal`. Deliberate simplifications, each noted where it applies: numeric
literals are modelled as integers (a fractional or exponent part is
treated as a parse failure), `\u` string escapes are treated as a parse
failure, and literal control characters inside strings are accepted. The
claims under study only exercise integral numerals and plain strings. -/

/-- Skip JSON whitespace. -/
def skipWs : List Char → List Char
  | c :: cs => if c = ' ' || c = '\n' || c = '\t' || c = '\r' then skipWs cs else c :: cs
  | [] => []

/-- Decode one string escape character (after a backslash). `\u` escapes
are not modelled. -/
def escChar? (c : Char) : Option Char :=
  if c = '"' then some '"'
  else if c = '\\' then some '\\'
  else if c = '/' then some '/'
  else if c = 'n' then some '\n'
  else if c = 't' then some '\t'
  else if c = 'r' then some '\r'
  else if c = 'b' then some (Char.ofNat 8)
  else if c = 'f' then some (Char.ofNat 12)
  else none

/-- Parse the body of a JSON string after the opening quote, returning the
decoded characters and the remainder after the closing quote. -/
def parseStringChars : List Char → Option (List Char × List Char)
  | [] => none
  | '"' :: rest => some ([], rest)
  | '\\' :: c :: rest =>
    match escChar? c with
    | some ec => (parseStringChars rest).map (fun p => (ec :: p.1, p.2))
    | none => none
  | c :: rest => (parseStringChars rest).map (fun p => (c :: p.1, p.2))

/-- Decimal digits to a natural number. -/
def digitsToNat (ds : List Char) : Nat :=
  ds.foldl (fun a c => a * 10 + (c.toNat - '0'.toNat)) 0

/-- Parse a JSON numeric literal (integers only; a fractional or exponent
part is treated as a parse failure). -/
def parseNumber (cs : List Char) : Option (JVal × List Char) :=
  let neg := match cs with | '-' :: _ => true | _ => false
  let cs1 := match cs with | '-' :: r => r | _ => cs
  let ds := cs1.takeWhile (fun c => c.isDigit)
  let rest := cs1.dropWhile (fun c => c.isDigit)
  if ds.isEmpty then none
  else
    match rest with
    | '.' :: _ => none
    | 'e' :: _ => none
    | 'E' :: _ => none
    | _ =>
      let n : Int := Int.ofNat (digitsToNat ds)
      some (.num (if neg then -n else n), rest)

/-- The pending job of the recursive-descent parser: a value, the members
of an object (accumulated fields), or the elements of an array. -/
inductive PJob where
  | val
  | members (acc : List (String × JVal))
  | elems (acc : List JVal)

/-- One fueled recursive-descent JSON parser covering values, object
members and array elements. Structural recursion on the fuel keeps every
branch kernel-reducible. -/
def parseStep : Nat → PJob → List Char → Option (JVal × List Char)
  | 0, _, _ => none
  | Nat.succ fuel, PJob.val, cs =>
    match skipWs cs with
    | '{' :: rest =>
      (match skipWs rest with
       | '}' :: r2 => some (.obj [], r2)
       | r2 => parseStep fuel (PJob.members []) r2)
    | '[' :: rest =>
      (match skipWs rest with
       | ']' :: r2 => some (.arr [], r2)
       | r2 => parseStep fuel (PJob.elems []) r2)
    | '"' :: rest => (parseStringChars rest).map (fun p => (.str (String.mk p.1), p.2))
    | 't' :: 'r' :: 'u' :: 'e' :: rest => some (.bool true, rest)
    | 'f' :: 'a' :: 'l' :: 's' :: 'e' :: rest => some (.bool false, rest)
    | 'n' :: 'u' :: 'l' :: 'l' :: rest => some (.null, rest)
    | other => parseNumber other
  | Nat.succ fuel, PJob.members acc, cs =>
    (match skipWs cs with
     | '"' :: rest =>
       (match parseStringChars rest with
        | none => none
        | some (k, r1) =>
          (match skipWs r1 with
           | ':' :: r2 =>
             (match parseStep fuel PJob.val r2 with
              | none => none
              | some (v, r3) =>
                let acc2 := objSet acc (String.mk k) v
                (match skipWs r3 with
                 | ',' :: r4 => parseStep fuel (PJob.members acc2) r4
                 | '}' :: r4 => some (.obj acc2, r4)
                 | _ => none))
           | _ => none))
     | _ => none)
  | Nat.succ fuel, PJob.elems acc, cs =>
    (match parseStep fuel PJob.val cs with
     | none => none
     | some (v, r1) =>
       (match skipWs r1 with
        | ',' :: r2 => parseStep fuel (PJob.elems (acc ++ [v])) r2
        | ']' :: r2 => some (.arr (acc ++ [v]), r2)
        | _ => none))

/-- `JSON.parse`: parse one value and require only whitespace after it. -/
def jsonParse (s : String) : Option JVal :=
  let cs := s.toList
  match parseStep (2 * cs.length + 2) PJob.val cs with
  | some (v, rest) => if skipWs rest = [] then some v else none
  | none => none

/-- `extractJsonObject` (App.tsx lines 1165-1177): slice from the first
`\x7b` to the last `\x7d` and attempt to parse; `none` when no well-ordered
pair exists or the parse fails. -/
def extractJsonObject (text : String) : Option JVal :=
  let cs := text.toList
  match cs.findIdx? (fun c => c = '{'), cs.reverse.findIdx? (fun c => c = '}') with
  | some s, some rIdx =>
    let e := cs.length - 1 - rIdx
    if e ≤ s then none
    else jsonParse (String.mk ((cs.drop s).take (e + 1 - s)))
  | _, _ => none

/-- The optional fields of a parsed phase setup (src/server types +
App.tsx). -/
structure PhaseSetup where
  title : Option String
  range : Option String
  summary : Option String
  subphaseTitle : Option String
  subphaseRange : Option String
  subphasePrompt : Option String
  themes : Option (List String)
  questions : Option (List String)

/-- `pickString` (App.tsx): accept only a string value, trimmed. -/
def pickString (v : JVal) (key : String) : Option String :=
  match jsGet v key with
  | some (.str s) => some (jsTrim s)
  | _ => none

/-- `pickList` (App.tsx): accept only a list value; keep the string
entries, trim them, and drop the ones that trim to empty. -/
def pickList (v : JVal) (key : String) : Option (List String) :=
  match jsGet v key with
  | some (.arr xs) =>
    some ((((xs.filterMap (fun x => match x with | .str s => some s | _ => none)).map
      jsTrim)).filter (fun s => s != ""))
  | _ => none

/-- `parsePhaseSetup` (App.tsx lines 1179-1207). -/
def parsePhaseSetup (text : String) : Option PhaseSetup :=
  if text = "" then none
  else
    match extractJsonObject text with
    | none => none
    | some parsed =>
      if jsTruthy parsed && jsTypeof parsed == "object" then
        some { title := pickString parsed "title",
               range := pickString parsed "range",
               summary := pickString parsed "summary",
               subphaseTitle := pickString parsed "subphaseTitle",
               subphaseRange := pickString parsed "subphaseRange",
               subphasePrompt := pickString parsed "subphasePrompt",
               themes := pickList parsed "themes",
               questions := pickList parsed "questions" }
      else none

/-- The concrete input of claim C8 / property P3. -/
def exampleSetupText : String :=
  "Sure! \x7b\"title\": \"Reform Era\", \"themes\": [\"law\", 42, \" politics \"]\x7d"

/-! ## Concrete data used by witnesses -/

/-- A bare 404 error. -/
def err404 : ApiError :=
  { status := some 404, innerCode := none, code := none, innerMessage := none, message := none }

/-- A rate-limit error: not in the model-unavailable class. -/
def err429 : ApiError :=
  { status := some 429, innerCode := none, code := none, innerMessage := none,
    message := some "Rate limit reached" }

/-- A `model_not_found` error carried in `error.error.code`. -/
def errModelNotFound : ApiError :=
  { status := none, innerCode := some "model_not_found", code := none,
    innerMessage := none, message := none }

/-- A provider that answers `"hello "` for `gpt-4o` and fails every other
model with a 404. -/
def attemptEx : String → Except ApiError Completion :=
  fun m => if m = "gpt-4o" then .ok { content := some "hello " } else .error err404

/-- A provider that always fails with a rate-limit error. -/
def attempt429 : String → Except ApiError Completion :=
  fun _ => .error err429

/-- A provider that always fails with a 404. -/
def attempt404 : String → Except ApiError Completion :=
  fun _ => .error err404

/-! # Helper lemmas -/

/-- A string is empty exactly when its character list is. -/
theorem string_eq_empty_iff (s : String) : s = "" ↔ s.toList = [] := by
  constructor
  · intro h; subst h; rfl
  · intro h
    cases s with
    | mk data =>
      simp only [String.toList] at h
      simp [h]

/-- Appending to a nonempty string stays nonempty (as a `!=` test). -/
theorem append_bne_empty (a b : String) (ha : a.toList ≠ []) : ((a ++ b) != "") = true := by
  rw [bne_iff_ne]
  intro h
  apply ha
  have hd : (a ++ b).toList = ("" : String).toList := by rw [h]
  simp only [String.toList, String.data_append] at hd
  have := List.append_eq_nil.mp hd
  exact this.1

/-- `filter(Boolean)` over a present nonempty entry. -/
theorem filterLines_cons_some (x : String) (hx : (x != "") = true)
    (l : List (Option String)) :
    ((List.filterMap id (some x :: l)).filter (fun s => s != ""))
      = x :: ((List.filterMap id l).filter (fun s => s != "")) := by
  simp [List.filterMap_cons, List.filter_cons, hx]

/-- `filter(Boolean)` over one conditional context entry. -/
theorem filterLines_cons_opt (lab : String) (hlab : lab.toList ≠ [])
    (v : Option String) (l : List (Option String)) :
    ((List.filterMap id (optLine lab v :: l)).filter (fun s => s != ""))
      = (optLine lab v).toList ++ ((List.filterMap id l).filter (fun s => s != "")) := by
  cases v with
  | none => simp [optLine, List.filterMap_cons]
  | some s =>
    by_cases hs : s = ""
    · simp [optLine, hs, List.filterMap_cons]
    · have hne : ((lab ++ s) != "") = true := append_bne_empty lab s hlab
      simp [optLine, hs, List.filterMap_cons, List.filter_cons, hne]

/-- C10: the serialized context block always contains its first four lines,
with `Kind: unknown`, `Scope: summary`, `Title: Untitled`, `Range: n/a`
standing in for absent fields; only the five optional lines are omitted,
exactly when their field is absent or empty, so every block has at least
four lines. -/
theorem buildContextBlock_first_four_lines (c : AiContext) :
    contextLines c =
      ("Kind: " ++ c.kind.getD "unknown") ::
      ("Scope: " ++ c.scope.getD "summary") ::
      ("Title: " ++ c.title.getD "Untitled") ::
      ("Range: " ++ c.range.getD "n/a") ::
      ((optLine "Focus: " c.focus).toList ++ (optLine "Summary: " c.summary).toList ++
       (optLine "Prompt: " c.prompt).toList ++ (optLine "Draft: " c.draft).toList ++
       (optLine "Reading text: " c.readingText).toList)
    ∧ 4 ≤ (contextLines c).length
    ∧ buildContextBlock c = String.intercalate "\n" (contextLines c) := by
  have h1 : contextLines c =
      ("Kind: " ++ c.kind.getD "unknown") ::
      ("Scope: " ++ c.scope.getD "summary") ::
      ("Title: " ++ c.title.getD "Untitled") ::
      ("Range: " ++ c.range.getD "n/a") ::
      ((optLine "Focus: " c.focus).toList ++ (optLine "Summary: " c.summary).toList ++
       (optLine "Prompt: " c.prompt).toList ++ (optLine "Draft: " c.draft).toList ++
       (optLine "Reading text: " c.readingText).toList) := by
    show ((contextEntries c).filterMap id).filter (fun s => s != "") = _
    rw [contextEntries]
    rw [filterLines_cons_some _ (append_bne_empty _ _ (by decide))]
    rw [filterLines_cons_some _ (append_bne_empty _ _ (by decide))]
    rw [filterLines_cons_some _ (append_bne_empty _ _ (by decide))]
    rw [filterLines_cons_some _ (append_bne_empty _ _ (by decide))]
    rw [filterLines_cons_opt _ (by decide), filterLines_cons_opt _ (by decide),
      filterLines_cons_opt _ (by decide), filterLines_cons_opt _ (by decide),
      filterLines_cons_opt _ (by decide)]
    simp [List.append_assoc]
  refine ⟨h1, ?_, rfl⟩
  rw [h1]
  simp only [List.length_cons]
  omega

/-- C9: every `useUndoRedo` operation preserves the invariant
`index < history.length ≤ 50`; right after `setState v` the exposed state
is `v` and `canRedo` is `false`; `canUndo` holds exactly when the index is
positive and `canRedo` exactly when the index is before the last entry. -/
theorem useUndoRedo_invariants {T : Type} (s : UndoRedoState T) (v w : T) :
    (urInv s → urInv (urSetState s v))
    ∧ (urInv s → urInv (urUndo s))
    ∧ (urInv s → urInv (urRedo s))
    ∧ urInv (urReset (T := T) w)
    ∧ urInv (urInit (T := T) w)
    ∧ (urInv s → urState (urSetState s v) = some v)
    ∧ (urInv s → urCanRedo (urSetState s v) = false)
    ∧ (urCanUndo s = true ↔ 0 < s.index)
    ∧ (urCanRedo s = true ↔ s.index < s.history.length - 1) := by
  obtain ⟨hist, idx⟩ := s
  have hTake : ∀ h : idx < hist.length, (hist.take (idx + 1)).length = idx + 1 := by
    intro h
    rw [List.length_take]
    omega
  refine ⟨?_, ?_, ?_, ?_, ?_, ?_, ?_, ?_, ?_⟩
  · rintro ⟨hidx, hlen⟩
    dsimp only at hidx hlen
    dsimp only [urSetState, urInv]
    have hlt : (hist.take (idx + 1) ++ [v]).length = idx + 2 := by
      rw [List.length_append, hTake hidx]
      rfl
    by_cases hgt : (hist.take (idx + 1) ++ [v]).length > 50
    · rw [if_pos hgt]
      dsimp only
      rw [List.length_tail, hlt]
      rw [hlt] at hgt
      omega
    · rw [if_neg hgt]
      dsimp only
      rw [hlt]
      rw [hlt] at hgt
      omega
  · rintro ⟨hidx, hlen⟩
    dsimp only at hidx hlen
    dsimp only [urUndo, urInv]
    by_cases hpos : 0 < idx
    · rw [if_pos hpos]
      exact ⟨show idx - 1 < hist.length by omega, hlen⟩
    · rw [if_neg hpos]
      exact ⟨hidx, hlen⟩
  · rintro ⟨hidx, hlen⟩
    dsimp only at hidx hlen
    dsimp only [urRedo, urInv]
    by_cases hlt : idx < hist.length - 1
    · rw [if_pos hlt]
      exact ⟨show idx + 1 < hist.length by omega, hlen⟩
    · rw [if_neg hlt]
      exact ⟨hidx, hlen⟩
  · exact ⟨by simp [urReset], by simp [urReset]⟩
  · exact ⟨by simp [urInit], by simp [urInit]⟩
  · rintro ⟨hidx, hlen⟩
    dsimp only at hidx hlen
    dsimp only [urSetState, urState]
    by_cases hgt : (hist.take (idx + 1) ++ [v]).length > 50
    · rw [if_pos hgt]
      dsimp only
      have hne : hist.take (idx + 1) ≠ [] := by
        intro h
        have := hTake hidx
        rw [h] at this
        simp at this
      obtain ⟨a, as, ha⟩ := List.exists_cons_of_ne_nil hne
      rw [ha]
      have has : (as ++ [v]).length - 1 = as.length := by simp
      simp only [List.cons_append, List.tail_cons, has]
      exact List.getElem?_concat_length as v
    · rw [if_neg hgt]
      dsimp only
      have hlen2 : (hist.take (idx + 1) ++ [v]).length - 1 = (hist.take (idx + 1)).length := by
        simp
      rw [hlen2]
      exact List.getElem?_concat_length _ v
  · rintro ⟨hidx, hlen⟩
    dsimp only at hidx hlen
    dsimp only [urSetState, urCanRedo]
    by_cases hgt : (hist.take (idx + 1) ++ [v]).length > 50
    · rw [if_pos hgt]
      dsimp only
      simp
    · rw [if_neg hgt]
      dsimp only
      simp
  · dsimp only [urCanUndo]
    simp
  · dsimp only [urCanRedo]
    simp

/-- Witness for C9 at a concrete state. -/
theorem useUndoRedo_invariants_witness :
    urInv (urSetState (urInit (0 : Nat)) 1)
    ∧ urState (urSetState (urInit (0 : Nat)) 1) = some 1
    ∧ urCanRedo (urSetState (urInit (0 : Nat)) 1) = false := by
  have h := useUndoRedo_invariants (urInit (0 : Nat)) 1 0
  have hinv : urInv (urInit (0 : Nat)) := ⟨by decide, by decide⟩
  exact ⟨h.1 hinv, h.2.2.2.2.2.1 hinv, h.2.2.2.2.2.2.1 hinv⟩

/-- `isPrefixOf` recovers an append decomposition. -/
theorem isPrefixOf_drop (p : List Char) :
    ∀ l, p.isPrefixOf l = true → l = p ++ l.drop p.length := by
  induction p with
  | nil => intro l _; simp
  | cons a p ih =>
    intro l h
    cases l with
    | nil => simp [List.isPrefixOf] at h
    | cons b l2 =>
      simp only [List.isPrefixOf, Bool.and_eq_true, beq_iff_eq] at h
      obtain ⟨hab, hp⟩ := h
      subst hab
      simp only [List.cons_append, List.length_cons, List.drop_succ_cons, List.cons.injEq,
        true_and]
      exact ih l2 hp

/-- A list is a prefix of itself followed by anything. -/
theorem isPrefixOf_self_append (p q : List Char) : p.isPrefixOf (p ++ q) = true := by
  induction p with
  | nil => simp [List.isPrefixOf]
  | cons a p ih => simp [List.isPrefixOf, ih]

/-- Strings with the same characters are equal. -/
theorem string_toList_inj (s t : String) (h : s.toList = t.toList) : s = t := by
  cases s with
  | mk d1 =>
    cases t with
    | mk d2 =>
      simp only [String.toList] at h
      rw [h]

/-- Rebuilding a string from its characters is the identity. -/
theorem string_mk_toList (s : String) : String.mk s.toList = s := by
  cases s
  rfl

/-- Appending strings appends their characters. -/
theorem string_toList_append (a b : String) : (a ++ b).toList = a.toList ++ b.toList := by
  cases a
  cases b
  rfl

/-- Case analysis of `getAuthToken`. -/
theorem getAuthToken_cases (h : Headers) :
    (h.authorization = none → getAuthToken h = h.xSyncToken)
    ∧ (∀ a, h.authorization = some a →
        (("Bearer ".toList).isPrefixOf a.toList = false → getAuthToken h = h.xSyncToken)
        ∧ (("Bearer ".toList).isPrefixOf a.toList = true →
           getAuthToken h = some (String.mk (a.toList.drop 7)))) := by
  refine ⟨?_, ?_⟩
  · intro ha
    unfold getAuthToken
    rw [ha]
    rfl
  · intro a ha
    constructor
    · intro hpre
      unfold getAuthToken
      rw [ha]
      simp only [Option.getD_some]
      rw [hpre]
      simp
    · intro hpre
      unfold getAuthToken
      rw [ha]
      simp only [Option.getD_some]
      rw [hpre]
      simp

/-- With a nonempty secret, a request matching neither the bearer form nor
the alternate header is denied. -/
theorem authAllows_false_of_no_match (secret : String) (hs : secret ≠ "") (h : Headers)
    (hauth : h.authorization ≠ some ("Bearer " ++ secret))
    (hxtok : h.xSyncToken ≠ some secret) :
    authAllows (some secret) h = false := by
  have hg := getAuthToken_cases h
  have hxcase : getAuthToken h = h.xSyncToken →
      (match getAuthToken h with
       | some token => token != "" && token == secret
       | none => false) = false := by
    intro hgx
    rw [hgx]
    cases hx : h.xSyncToken with
    | none => rfl
    | some t =>
      have ht : t ≠ secret := fun hts => hxtok (by rw [hx, hts])
      simp [beq_eq_false_iff_ne.mpr ht]
  have hunfold : authAllows (some secret) h
      = if secret = "" then true else
          (match getAuthToken h with
           | some token => token != "" && token == secret
           | none => false) := rfl
  rw [hunfold, if_neg hs]
  cases ha : h.authorization with
  | none => exact hxcase (hg.1 ha)
  | some a =>
    cases hpre : ("Bearer ".toList).isPrefixOf a.toList with
    | false => exact hxcase ((hg.2 a ha).1 hpre)
    | true =>
      rw [(hg.2 a ha).2 hpre]
      have hne : String.mk (a.toList.drop 7) ≠ secret := by
        intro heq
        apply hauth
        rw [ha]
        have h1 : a.toList = "Bearer ".toList ++ a.toList.drop 7 := by
          have hd := isPrefixOf_drop _ _ hpre
          have hlen : ("Bearer ".toList).length = 7 := by decide
          rw [hlen] at hd
          exact hd
        have h2 : secret.toList = a.toList.drop 7 := by
          rw [← heq]
          rfl
        have : a.toList = ("Bearer " ++ secret).toList := by
          rw [string_toList_append, h1, h2]
        rw [string_toList_inj _ _ this]
      simp only [beq_eq_false_iff_ne.mpr hne, Bool.and_false]

/-- With a nonempty secret, the correct bearer token is accepted. -/
theorem authAllows_true_of_bearer (secret : String) (hs : secret ≠ "") (h : Headers)
    (hauth : h.authorization = some ("Bearer " ++ secret)) :
    authAllows (some secret) h = true := by
  have hg := getAuthToken_cases h
  have hpre : ("Bearer ".toList).isPrefixOf (("Bearer " ++ secret) : String).toList = true := by
    rw [string_toList_append]
    exact isPrefixOf_self_append _ _
  have htok := (hg.2 _ hauth).2 hpre
  have hunfold : authAllows (some secret) h
      = if secret = "" then true else
          (match getAuthToken h with
           | some token => token != "" && token == secret
           | none => false) := rfl
  rw [hunfold, if_neg hs, htok]
  have hdrop : (("Bearer " ++ secret) : String).toList.drop 7 = secret.toList := by
    rw [string_toList_append]
    have hlen : ("Bearer ".toList).length = 7 := by decide
    rw [← hlen, List.drop_left]
  rw [hdrop, string_mk_toList]
  simp [hs]

/-- C6: with a configured (nonempty) secret, a request to a gated route
that matches the secret neither as a bearer Authorization header nor as the
`x-sync-token` header receives the 401 response and the handler never runs,
leaving the state (sync file, uploads, ...) untouched; a request with the
correct bearer token runs the handler; with no secret configured every
request runs the handler. -/
theorem auth_gate {σ : Type} (secret : String) (hsecret : secret ≠ "") (h : Headers)
    (handler : σ → SyncResponse × σ) (st : σ) :
    (h.authorization ≠ some ("Bearer " ++ secret) → h.xSyncToken ≠ some secret →
       gated (some secret) h handler st = (unauthorizedResponse, st))
    ∧ (h.authorization = some ("Bearer " ++ secret) →
       gated (some secret) h handler st = handler st)
    ∧ gated none h handler st = handler st := by
  refine ⟨?_, ?_, rfl⟩
  · intro hauth hxtok
    unfold gated
    rw [authAllows_false_of_no_match secret hsecret h hauth hxtok]
    simp
  · intro hauth
    unfold gated
    rw [authAllows_true_of_bearer secret hsecret h hauth]
    simp

/-- Witness for C6 at concrete headers and the sync GET handler. -/
theorem auth_gate_witness :
    gated (some "secret-token") { authorization := none, xSyncToken := none }
      getSyncHandler FileState.absent = (unauthorizedResponse, FileState.absent)
    ∧ gated (some "secret-token")
      { authorization := some "Bearer secret-token", xSyncToken := none }
      getSyncHandler FileState.absent = getSyncHandler FileState.absent := by
  have h1 := auth_gate "secret-token" (by decide)
    { authorization := none, xSyncToken := none } getSyncHandler FileState.absent
  have h2 := auth_gate "secret-token" (by decide)
    { authorization := some "Bearer secret-token", xSyncToken := none }
    getSyncHandler FileState.absent
  exact ⟨h1.1 (by simp) (by simp), h2.2.1 rfl⟩

/-- Replacing a present key hits it under `find?` over the rewritten list. -/
theorem find?_map_keyhit (k : String) (v : JVal) :
    ∀ (l : List (String × JVal)), l.any (fun p => p.1 == k) = true →
    (l.map (fun p => if p.1 == k then (k, v) else p)).find? (fun p => p.1 == k)
      = some (k, v) := by
  intro l hl
  induction l with
  | nil => simp at hl
  | cons p l ih =>
    simp only [List.any_cons, Bool.or_eq_true] at hl
    simp only [List.map_cons]
    by_cases hp : (p.1 == k) = true
    · rw [if_pos hp]
      apply List.find?_cons_of_pos
      simp
    · rw [if_neg hp]
      rw [List.find?_cons_of_neg]
      · exact ih (hl.resolve_left hp)
      · simpa using hp

/-- After `objSet`, reading the key yields the written value. -/
theorem jsGet_objSet (fs : List (String × JVal)) (k : String) (v : JVal) :
    jsGet (.obj (objSet fs k v)) k = some v := by
  unfold jsGet objSet
  by_cases hany : fs.any (fun p => p.1 == k) = true
  · rw [if_pos hany]
    dsimp only
    rw [← List.map_reverse]
    have hanyrev : fs.reverse.any (fun p => p.1 == k) = true := by
      rw [List.any_eq_true] at hany ⊢
      obtain ⟨x, hx, hpx⟩ := hany
      exact ⟨x, List.mem_reverse.mpr hx, hpx⟩
    rw [find?_map_keyhit k v fs.reverse hanyrev]
    rfl
  · rw [if_neg hany]
    dsimp only
    rw [List.reverse_append]
    simp [List.find?]

/-- The stored sync document carries the server-assigned time. -/
theorem jsGet_writeSyncData (payload : JVal) (now : Nat) :
    jsGet (writeSyncData payload now) "updatedAt" = some (.num now) :=
  jsGet_objSet _ _ _

/-- Reading back a stored write returns it verbatim. -/
theorem readSyncData_stored_write (payload : JVal) (now : Nat) :
    readSyncData (.stored (writeSyncData payload now)) = writeSyncData payload now := rfl
/-- C3: for two sequential accepted writes A then B (with the second
request at a strictly later server time), a subsequent GET returns B's
stamped document; the stored `updatedAt` is always the server-assigned
time, overwriting any `updatedAt` supplied in the payload; and B's stored
timestamp is strictly later than A's. -/
theorem sync_last_write_wins (file0 : FileState) (A B : JVal) (tA tB : Nat)
    (hA : (jsTruthy A && jsTypeof A == "object") = true)
    (hB : (jsTruthy B && jsTypeof B == "object") = true)
    (hts : tA < tB) :
    (postSyncHandler (some A) tA true file0).1.status = 200
    ∧ (postSyncHandler (some B) tB true
        (postSyncHandler (some A) tA true file0).2).1.status = 200
    ∧ getSyncHandler (postSyncHandler (some B) tB true
        (postSyncHandler (some A) tA true file0).2).2
        = ({ status := 200, body := writeSyncData B tB },
           FileState.stored (writeSyncData B tB))
    ∧ jsGet (writeSyncData A tA) "updatedAt" = some (.num tA)
    ∧ jsGet (writeSyncData B tB) "updatedAt" = some (.num tB)
    ∧ (tA : Int) < (tB : Int) := by
  have e1 : postSyncHandler (some A) tA true file0
      = ({ status := 200,
           body := .obj [("ok", .bool true),
                         ("updatedAt", (jsGet (writeSyncData A tA) "updatedAt").getD .null)] },
         .stored (writeSyncData A tA)) := by
    simp only [postSyncHandler, hA, if_true]
  have e2 : postSyncHandler (some B) tB true (FileState.stored (writeSyncData A tA))
      = ({ status := 200,
           body := .obj [("ok", .bool true),
                         ("updatedAt", (jsGet (writeSyncData B tB) "updatedAt").getD .null)] },
         .stored (writeSyncData B tB)) := by
    simp only [postSyncHandler, hB, if_true]
  rw [e1]
  refine ⟨rfl, ?_, ?_, jsGet_writeSyncData A tA, jsGet_writeSyncData B tB, ?_⟩
  · rw [e2]
  · rw [e2]
    unfold getSyncHandler
    rw [readSyncData_stored_write]
  · exact_mod_cast hts

/-- Witness for C3 at a payload that itself carries an `updatedAt`. -/
theorem sync_last_write_wins_witness :
    jsGet (writeSyncData (JVal.obj [("updatedAt", JVal.num 999)]) 1) "updatedAt"
      = some (JVal.num 1) :=
  (sync_last_write_wins FileState.absent (JVal.obj [])
    (JVal.obj [("updatedAt", JVal.num 999)]) 0 1 (by decide) (by decide)
    (by decide)).2.2.2.2.1

/-- C4 counterexample: an unreadable (or unparseable) sync file does not
produce a 500 on GET `/api/sync`; the handler answers 200 with the
placeholder document. -/
theorem sync_read_failure_counterexample :
    (getSyncHandler FileState.unreadable).1.status = 200
    ∧ (getSyncHandler FileState.unreadable).1.status ≠ 500
    ∧ (getSyncHandler FileState.unreadable).1.body = placeholderSync :=
  ⟨rfl, by decide, rfl⟩

/-- C4 amended: a disk write failure during POST `/api/sync` is surfaced as
500 and the prior file is intact; a disk read failure or unparseable sync
file during GET `/api/sync` is not an error: the endpoint answers 200 with
the placeholder document. -/
theorem sync_persistence_failure_amended (b : JVal)
    (hb : (jsTruthy b && jsTypeof b == "object") = true) (now : Nat) (file : FileState) :
    postSyncHandler (some b) now false file
      = ({ status := 500, body := .obj [("error", .str "Failed to write sync data")] }, file)
    ∧ getSyncHandler FileState.unreadable
      = ({ status := 200, body := placeholderSync }, FileState.unreadable) := by
  constructor
  · simp only [postSyncHandler, hb, if_true, Bool.false_eq_true, if_false]
  · rfl

/-- Witness for the amended C4 at a concrete body. -/
theorem sync_persistence_failure_amended_witness :
    postSyncHandler (some (JVal.obj [])) 0 false FileState.absent
      = ({ status := 500, body := .obj [("error", .str "Failed to write sync data")] },
         FileState.absent) :=
  (sync_persistence_failure_amended (JVal.obj []) (by decide) 0 FileState.absent).1

/-- C5 counterexample: an array body is not rejected: `typeof [] ===
'object'` and `[]` is truthy, so the handler writes the stamped document
and answers 200, where the claim demands a 400 with no write. -/
theorem sync_post_array_counterexample :
    (postSyncHandler (some (JVal.arr [])) 0 true FileState.absent).1.status = 200
    ∧ (postSyncHandler (some (JVal.arr [])) 0 true FileState.absent).1.status ≠ 400
    ∧ (postSyncHandler (some (JVal.arr [])) 0 true FileState.absent).2
        = FileState.stored (JVal.obj [("updatedAt", JVal.num 0)]) :=
  ⟨rfl, by decide, rfl⟩

/-- C5 amended: POST `/api/sync` answers 400 and performs no write exactly
when the body is absent or not of JavaScript object type (`null`, boolean,
number or string); for every body that is a JSON object or a JSON array it
writes the stamped document and answers `ok` with the stamp. -/
theorem sync_post_validation_amended (body : Option JVal) (now : Nat) (file : FileState) :
    ((body = none ∨ ∃ b, body = some b ∧ (jsTruthy b && jsTypeof b == "object") = false) →
      postSyncHandler body now true file
        = ({ status := 400, body := .obj [("error", .str "Invalid payload")] }, file))
    ∧ (∀ b, body = some b → (jsTruthy b && jsTypeof b == "object") = true →
      postSyncHandler body now true file
        = ({ status := 200, body := .obj [("ok", .bool true), ("updatedAt", .num now)] },
           .stored (writeSyncData b now))) := by
  constructor
  · rintro (hnone | ⟨b, hb, hcond⟩)
    · rw [hnone]; rfl
    · rw [hb]
      simp only [postSyncHandler, hcond, Bool.false_eq_true, if_false]
  · intro b hb hcond
    rw [hb]
    simp only [postSyncHandler, hcond, if_true, jsGet_writeSyncData, Option.getD_some]

/-- Witness for the amended C5 at a null body and an object body. -/
theorem sync_post_validation_amended_witness :
    postSyncHandler (some JVal.null) 0 true FileState.absent
      = ({ status := 400, body := .obj [("error", .str "Invalid payload")] }, FileState.absent)
    ∧ postSyncHandler (some (JVal.obj [])) 7 true FileState.absent
      = ({ status := 200, body := .obj [("ok", .bool true), ("updatedAt", .num 7)] },
         .stored (writeSyncData (JVal.obj []) 7)) :=
  ⟨(sync_post_validation_amended (some JVal.null) 0 FileState.absent).1
      (Or.inr ⟨JVal.null, rfl, by decide⟩),
   (sync_post_validation_amended (some (JVal.obj [])) 7 FileState.absent).2
      (JVal.obj []) rfl (by decide)⟩

/-- The fallback loop always attempts the head of a nonempty candidate
list first. -/
theorem callOpenAiGo_fst_cons (attempt : String → Except ApiError Completion)
    (m : String) (rest : List String) (lastError : Option ApiError) :
    ∃ t, (callOpenAiGo attempt (m :: rest) lastError).1 = m :: t := by
  unfold callOpenAiGo
  cases attempt m with
  | ok c => exact ⟨[], rfl⟩
  | error e =>
    dsimp only
    by_cases he : isModelError e = true
    · rw [if_pos he]
      exact ⟨(callOpenAiGo attempt rest (some e)).1, rfl⟩
    · rw [if_neg he]
      exact ⟨[], rfl⟩

/-- The attempted models are always an initial segment of the candidate
list. -/
theorem callOpenAiGo_fst_take (attempt : String → Except ApiError Completion) :
    ∀ (ms : List String) (lastError : Option ApiError),
    ∃ k, (callOpenAiGo attempt ms lastError).1 = ms.take k := by
  intro ms
  induction ms with
  | nil => intro lastError; exact ⟨0, rfl⟩
  | cons m rest ih =>
    intro lastError
    unfold callOpenAiGo
    cases attempt m with
    | ok c => exact ⟨1, rfl⟩
    | error e =>
      dsimp only
      by_cases he : isModelError e = true
      · rw [if_pos he]
        obtain ⟨k, hk⟩ := ih (some e)
        exact ⟨k + 1, by simp [hk]⟩
      · rw [if_neg he]
        exact ⟨1, rfl⟩

/-- On success the loop stops: the successful model is the last one
attempted, the returned text is the trimmed content of its completion, and
every earlier attempt failed with a model-unavailable error. -/
theorem callOpenAiGo_success (attempt : String → Except ApiError Completion) :
    ∀ (ms : List String) (lastError : Option ApiError) (text model : String),
    (callOpenAiGo attempt ms lastError).2 = .ok (text, model) →
    (callOpenAiGo attempt ms lastError).1.getLast? = some model
    ∧ (∃ c, attempt model = .ok c ∧ text = completionText c)
    ∧ (∀ m2 ∈ (callOpenAiGo attempt ms lastError).1.dropLast,
        ∃ e, attempt m2 = .error e ∧ isModelError e = true) := by
  intro ms
  induction ms with
  | nil =>
    intro lastError text model h
    simp [callOpenAiGo] at h
  | cons m rest ih =>
    intro lastError text model h
    revert h
    unfold callOpenAiGo
    cases hm : attempt m with
    | ok c =>
      dsimp only
      intro h
      simp only [Except.ok.injEq, Prod.mk.injEq] at h
      obtain ⟨htext, hmodel⟩ := h
      subst hmodel
      refine ⟨rfl, ⟨c, hm, htext.symm⟩, ?_⟩
      intro m2 hm2
      simp at hm2
    | error e =>
      dsimp only
      by_cases he : isModelError e = true
      · rw [if_pos he]
        intro h
        simp only at h
        obtain ⟨hlast, hok, hfailed⟩ := ih (some e) text model h
        have hne : (callOpenAiGo attempt rest (some e)).1 ≠ [] := by
          intro hnil
          rw [hnil] at hlast
          simp at hlast
        obtain ⟨a, as, has⟩ := List.exists_cons_of_ne_nil hne
        refine ⟨?_, hok, ?_⟩
        · simp only [has, List.getLast?_cons_cons]
          rw [← has, hlast]
        · intro m2 hm2
          rw [has] at hm2
          simp only [List.dropLast_cons₂, List.mem_cons] at hm2
          rcases hm2 with hm2 | hm2
          · subst hm2
            exact ⟨e, hm, he⟩
          · apply hfailed
            rw [has]
            exact hm2
      · rw [if_neg he]
        intro h
        simp at h

/-- When every candidate fails with a model-unavailable error, the loop
raises the error of the last candidate. -/
theorem callOpenAiGo_allfail (attempt : String → Except ApiError Completion) :
    ∀ (ms : List String) (lastError : Option ApiError),
    (∀ m ∈ ms, ∃ e, attempt m = .error e ∧ isModelError e = true) →
    ms ≠ [] →
    ∃ m2 e2, ms.getLast? = some m2 ∧ attempt m2 = .error e2
      ∧ (callOpenAiGo attempt ms lastError).2 = .error e2 := by
  intro ms
  induction ms with
  | nil => intro lastError _ hne; exact absurd rfl hne
  | cons m rest ih =>
    intro lastError hall _
    obtain ⟨e, hm, he⟩ := hall m (List.mem_cons_self m rest)
    cases rest with
    | nil =>
      refine ⟨m, e, rfl, hm, ?_⟩
      unfold callOpenAiGo
      rw [hm]
      dsimp only
      rw [if_pos he]
      rfl
    | cons m2 rest2 =>
      have hall2 : ∀ m3 ∈ m2 :: rest2, ∃ e3, attempt m3 = .error e3 ∧ isModelError e3 = true := by
        intro m3 hm3
        exact hall m3 (List.mem_cons_of_mem m hm3)
      obtain ⟨m4, e4, hlast, hm4, hres⟩ := ih (some e) hall2 (by simp)
      refine ⟨m4, e4, ?_, hm4, ?_⟩
      · rw [List.getLast?_cons_cons]
        exact hlast
      · unfold callOpenAiGo
        rw [hm]
        dsimp only
        rw [if_pos he]
        exact hres

/-- The deduplicated candidate list: a nonempty preferred model comes
first, followed by the fixed fallbacks with the preferred model removed;
with no preferred model the list is exactly the fallback list. -/
theorem buildModelList_shape :
    (∀ p : String, p ≠ "" →
      buildModelList (some p) = p :: modelFallbacks.filter (fun y => y != p))
    ∧ buildModelList none = modelFallbacks := by
  constructor
  · intro p hp
    unfold buildModelList
    have h1 : ((some p).toList ++ modelFallbacks).filter (fun s => s != "")
        = p :: modelFallbacks := by
      simp only [Option.toList_some, List.cons_append, List.nil_append, List.filter_cons]
      rw [if_pos (by simpa using hp)]
      congr 1
    rw [h1]
    unfold jsSetDedup
    congr 1
  · rfl

/-- C1: for an error raised by one chat-completion attempt, the dispatch
advances to the next candidate exactly when `isModelError` holds, i.e. when
the HTTP status is 404, or the code resolved by `error?.error?.code ||
error?.code` is `model_not_found`, or the message matches
`/model.*not found/i` or `/does not exist/i`; any other error is re-raised
immediately with no further candidate attempted. -/
theorem fallback_trigger_precision (attempt : String → Except ApiError Completion)
    (m : String) (rest : List String) (lastError : Option ApiError) (e : ApiError)
    (h : attempt m = .error e) :
    (isModelError e = false →
       callOpenAiGo attempt (m :: rest) lastError = ([m], .error e))
    ∧ (isModelError e = true →
       callOpenAiGo attempt (m :: rest) lastError
         = (m :: (callOpenAiGo attempt rest (some e)).1,
            (callOpenAiGo attempt rest (some e)).2))
    ∧ (isModelError e = true → ∀ m2 rest2, rest = m2 :: rest2 →
        m2 ∈ (callOpenAiGo attempt (m :: rest) lastError).1)
    ∧ (isModelError e = true ↔
        (e.status = some 404 ∨ apiErrorCode e = some "model_not_found"
          ∨ regexModelNotFound (apiErrorMessage e) = true
          ∨ regexDoesNotExist (apiErrorMessage e) = true)) := by
  have hstep : callOpenAiGo attempt (m :: rest) lastError
      = if isModelError e = true then
          (m :: (callOpenAiGo attempt rest (some e)).1,
           (callOpenAiGo attempt rest (some e)).2)
        else ([m], .error e) := by
    have h0 : callOpenAiGo attempt (m :: rest) lastError
        = match attempt m with
          | .ok c => ([m], .ok (completionText c, m))
          | .error e =>
            if isModelError e = true then
              (m :: (callOpenAiGo attempt rest (some e)).1,
               (callOpenAiGo attempt rest (some e)).2)
            else ([m], .error e) := rfl
    rw [h0, h]
  refine ⟨?_, ?_, ?_, ?_⟩
  · intro hfalse
    rw [hstep, if_neg (by rw [hfalse]; exact Bool.false_ne_true)]
  · intro htrue
    rw [hstep, if_pos htrue]
  · intro htrue m2 rest2 hrest
    rw [hstep, if_pos htrue]
    subst hrest
    obtain ⟨t, ht⟩ := callOpenAiGo_fst_cons attempt m2 rest2 (some e)
    simp only [ht]
    simp
  · unfold isModelError
    simp [Bool.or_eq_true, beq_iff_eq, or_assoc]

/-- Witness for C1: a rate-limit error aborts at once; a 404 advances to
and attempts the next candidate. -/
theorem fallback_trigger_precision_witness :
    callOpenAiGo attempt429 ["gpt-4o-mini", "gpt-4o"] none = (["gpt-4o-mini"], .error err429)
    ∧ "gpt-4o" ∈ (callOpenAiGo attempt404 ["gpt-4o-mini", "gpt-4o"] none).1 := by
  have h1 := fallback_trigger_precision attempt429 "gpt-4o-mini" ["gpt-4o"] none err429 rfl
  have h2 := fallback_trigger_precision attempt404 "gpt-4o-mini" ["gpt-4o"] none err404 rfl
  exact ⟨h1.1 (by decide), h2.2.2.1 (by decide) "gpt-4o" [] rfl⟩

/-- C2: the dispatch attempts candidates in exactly the order given by
`buildModelList` (preferred model first when set and nonempty, then the
fixed fallbacks with duplicates removed); it attempts nothing after a
success, returning the trimmed text and the identifier of the successful
model; when every candidate fails with a model-unavailable error it raises
the error of the last candidate; and on an empty candidate list the loop
raises the generic no-available-model error. -/
theorem model_fallback_order (attempt : String → Except ApiError Completion)
    (preferred : Option String) :
    (∃ k, (callOpenAi true attempt preferred).1 = (buildModelList preferred).take k)
    ∧ (∀ p : String, p ≠ "" →
        buildModelList (some p) = p :: modelFallbacks.filter (fun y => y != p))
    ∧ buildModelList none = modelFallbacks
    ∧ (∀ text model, (callOpenAi true attempt preferred).2 = .ok (text, model) →
        (callOpenAi true attempt preferred).1.getLast? = some model
        ∧ (∃ c, attempt model = .ok c ∧ text = completionText c)
        ∧ (∀ m2 ∈ (callOpenAi true attempt preferred).1.dropLast,
            ∃ e, attempt m2 = .error e ∧ isModelError e = true))
    ∧ ((∀ m ∈ buildModelList preferred, ∃ e, attempt m = .error e ∧ isModelError e = true) →
        ∃ m2 e2, (buildModelList preferred).getLast? = some m2 ∧ attempt m2 = .error e2
          ∧ (callOpenAi true attempt preferred).2 = .error e2)
    ∧ callOpenAiGo attempt [] none = ([], .error noAvailableModelError) := by
  have hcall : callOpenAi true attempt preferred
      = callOpenAiGo attempt (buildModelList preferred) none := rfl
  refine ⟨?_, buildModelList_shape.1, buildModelList_shape.2, ?_, ?_, rfl⟩
  · rw [hcall]
    exact callOpenAiGo_fst_take attempt (buildModelList preferred) none
  · intro text model h
    rw [hcall] at h ⊢
    exact callOpenAiGo_success attempt (buildModelList preferred) none text model h
  · intro hall
    rw [hcall]
    refine callOpenAiGo_allfail attempt (buildModelList preferred) none hall ?_
    cases preferred with
    | none => simp [buildModelList_shape.2, modelFallbacks]
    | some p =>
      by_cases hp : p = ""
      · subst hp
        intro hempty
        have : buildModelList (some "") = modelFallbacks := rfl
        rw [this] at hempty
        simp [modelFallbacks] at hempty
      · rw [buildModelList_shape.1 p hp]
        simp

/-- Witness for C2: a preferred model that is itself unavailable falls
through to the first fallback that answers. -/
theorem model_fallback_order_witness :
    (callOpenAi true attemptEx (some "custom")).1.getLast? = some "gpt-4o"
    ∧ buildModelList (some "custom")
        = "custom" :: modelFallbacks.filter (fun y => y != "custom") := by
  have h := model_fallback_order attemptEx (some "custom")
  exact ⟨(h.2.2.2.1 "hello" "gpt-4o" (by rfl)).1, h.2.1 "custom" (by decide)⟩

/-- `Nat.digitChar` of a digit below ten is a decimal digit character. -/
theorem digitChar_isDigit_fin : ∀ d : Fin 10, (Nat.digitChar d.val).isDigit = true := by
  decide

/-- Every character contributed by `Nat.toDigitsCore` in base 10 is a
decimal digit (given that the accumulator holds digits). -/
theorem toDigitsCore_isDigit :
    ∀ (fuel n : Nat) (ds : List Char), (∀ c ∈ ds, c.isDigit = true) →
    ∀ c ∈ Nat.toDigitsCore 10 fuel n ds, c.isDigit = true := by
  intro fuel
  induction fuel with
  | zero => intro n ds hds; exact hds
  | succ fuel ih =>
    intro n ds hds c hc
    unfold Nat.toDigitsCore at hc
    have hd : (Nat.digitChar (n % 10)).isDigit = true :=
      digitChar_isDigit_fin ⟨n % 10, Nat.mod_lt n (by omega)⟩
    by_cases hz : n / 10 = 0
    · rw [if_pos hz] at hc
      rcases List.mem_cons.mp hc with hc | hc
      · rw [hc]; exact hd
      · exact hds c hc
    · rw [if_neg hz] at hc
      refine ih (n / 10) (Nat.digitChar (n % 10) :: ds) ?_ c hc
      intro c2 hc2
      rcases List.mem_cons.mp hc2 with hc2 | hc2
      · rw [hc2]; exact hd
      · exact hds c2 hc2

/-- Every character of the decimal representation of a natural number is a
decimal digit. -/
theorem natRepr_isDigit (n : Nat) : ∀ c ∈ (Nat.repr n).toList, c.isDigit = true := by
  intro c hc
  have : (Nat.repr n).toList = Nat.toDigitsCore 10 (n + 1) n [] := rfl
  rw [this] at hc
  exact toDigitsCore_isDigit (n + 1) n [] (by intro c2 hc2; simp at hc2) c hc

/-- `Nat.toDigitsCore` in base 10 computes the reversed digit string. -/
theorem toDigitsCore_eq_digits :
    ∀ (fuel n : Nat) (ds : List Char), n < fuel →
    Nat.toDigitsCore 10 fuel n ds
      = (if n = 0 then ['0'] else ((Nat.digits 10 n).map Nat.digitChar).reverse) ++ ds := by
  intro fuel
  induction fuel with
  | zero => intro n ds h; omega
  | succ fuel ih =>
    intro n ds h
    unfold Nat.toDigitsCore
    by_cases hz : n / 10 = 0
    · rw [if_pos hz]
      by_cases hn : n = 0
      · subst hn
        simp
        rfl
      · rw [if_neg hn]
        have hlt : 0 < n := by omega
        rw [Nat.digits_def' (by omega : (1:Nat) < 10) hlt, hz]
        simp
    · rw [if_neg hz]
      have hn : n ≠ 0 := by
        intro h0
        subst h0
        simp at hz
      have hfuel : n / 10 < fuel := by
        have h1 : n / 10 < n := Nat.div_lt_self (by omega) (by omega)
        omega
      rw [ih (n / 10) (Nat.digitChar (n % 10) :: ds) hfuel]
      rw [if_neg hz, if_neg hn]
      rw [Nat.digits_def' (by omega : (1:Nat) < 10) (by omega : 0 < n)]
      simp

/-- `Nat.digitChar` is injective below ten. -/
theorem digitChar_inj_fin :
    ∀ a b : Fin 10, Nat.digitChar a.val = Nat.digitChar b.val → a = b := by
  decide

/-- Mapping `Nat.digitChar` over lists of digits below ten is injective. -/
theorem map_digitChar_inj :
    ∀ (l1 l2 : List Nat), (∀ d ∈ l1, d < 10) → (∀ d ∈ l2, d < 10) →
    l1.map Nat.digitChar = l2.map Nat.digitChar → l1 = l2 := by
  intro l1
  induction l1 with
  | nil =>
    intro l2 _ _ h
    cases l2 with
    | nil => rfl
    | cons b l2 => simp at h
  | cons a l1 ih =>
    intro l2 h1 h2 h
    cases l2 with
    | nil => simp at h
    | cons b l2 =>
      simp only [List.map_cons, List.cons.injEq] at h
      obtain ⟨hab, htail⟩ := h
      have ha : a < 10 := h1 a (List.mem_cons_self a l1)
      have hb : b < 10 := h2 b (List.mem_cons_self b l2)
      have : (⟨a, ha⟩ : Fin 10) = ⟨b, hb⟩ := digitChar_inj_fin ⟨a, ha⟩ ⟨b, hb⟩ hab
      have hab2 : a = b := congrArg Fin.val this
      subst hab2
      rw [ih l2 (fun d hd => h1 d (List.mem_cons_of_mem a hd))
        (fun d hd => h2 d (List.mem_cons_of_mem a hd)) htail]

/-- The decimal representation of a natural number determines it. -/
theorem natRepr_inj (m n : Nat) (h : Nat.repr m = Nat.repr n) : m = n := by
  have hm : (Nat.repr m).toList = Nat.toDigitsCore 10 (m + 1) m [] := rfl
  have hn : (Nat.repr n).toList = Nat.toDigitsCore 10 (n + 1) n [] := rfl
  have hlists : Nat.toDigitsCore 10 (m + 1) m [] = Nat.toDigitsCore 10 (n + 1) n [] := by
    rw [← hm, ← hn, h]
  rw [toDigitsCore_eq_digits (m + 1) m [] (by omega),
    toDigitsCore_eq_digits (n + 1) n [] (by omega)] at hlists
  simp only [List.append_nil] at hlists
  by_cases hm0 : m = 0
  · by_cases hn0 : n = 0
    · rw [hm0, hn0]
    · rw [if_pos hm0, if_neg hn0] at hlists
      have hrev : (Nat.digits 10 n).map Nat.digitChar = ['0'] := by
        have := congrArg List.reverse hlists
        simpa using this.symm
      have hd : Nat.digits 10 n = [0] := by
        have h10 : (0:Nat) < 10 := by omega
        have := map_digitChar_inj (Nat.digits 10 n) [0]
          (fun d hd => Nat.digits_lt_base (by omega) hd)
          (by intro d hd; simp at hd; omega) (by rw [hrev]; rfl)
        exact this
      have : n = Nat.ofDigits 10 [0] := by
        rw [← hd, Nat.ofDigits_digits]
      simp [Nat.ofDigits] at this
      omega
  · by_cases hn0 : n = 0
    · rw [if_neg hm0, if_pos hn0] at hlists
      have hrev : (Nat.digits 10 m).map Nat.digitChar = ['0'] := by
        have := congrArg List.reverse hlists
        simpa using this
      have hd : Nat.digits 10 m = [0] := by
        have := map_digitChar_inj (Nat.digits 10 m) [0]
          (fun d hd => Nat.digits_lt_base (by omega) hd)
          (by intro d hd; simp at hd; omega) (by rw [hrev]; rfl)
        exact this
      have : m = Nat.ofDigits 10 [0] := by
        rw [← hd, Nat.ofDigits_digits]
      simp [Nat.ofDigits] at this
      omega
    · rw [if_neg hm0, if_neg hn0] at hlists
      have hmaps : (Nat.digits 10 m).map Nat.digitChar = (Nat.digits 10 n).map Nat.digitChar := by
        have := congrArg List.reverse hlists
        simpa using this
      have hdig : Nat.digits 10 m = Nat.digits 10 n :=
        map_digitChar_inj _ _ (fun d hd => Nat.digits_lt_base (by omega) hd)
          (fun d hd => Nat.digits_lt_base (by omega) hd) hmaps
      exact Nat.digits.injective 10 hdig

/-- The decimal representation is nonempty. -/
theorem natRepr_ne_nil (n : Nat) : (Nat.repr n).toList ≠ [] := by
  have h : (Nat.repr n).toList = Nat.toDigitsCore 10 (n + 1) n [] := rfl
  rw [h, toDigitsCore_eq_digits (n + 1) n [] (by omega)]
  by_cases hn : n = 0
  · rw [if_pos hn]
    simp
  · rw [if_neg hn]
    simp only [List.append_nil]
    intro hnil
    rw [List.reverse_eq_nil_iff, List.map_eq_nil_iff] at hnil
    rw [Nat.digits_eq_nil_iff_eq_zero] at hnil
    exact hn hnil

/-- Splitting two dash-separated lists at the first dash. -/
theorem splitDash :
    ∀ (a1 r1 a2 r2 : List Char), ('-') ∉ a1 → ('-') ∉ a2 →
    a1 ++ '-' :: r1 = a2 ++ '-' :: r2 → a1 = a2 := by
  intro a1
  induction a1 with
  | nil =>
    intro r1 a2 r2 _ h2 h
    cases a2 with
    | nil => rfl
    | cons b a2 =>
      simp only [List.nil_append, List.cons_append, List.cons.injEq] at h
      exfalso
      apply h2
      rw [← h.1]
      exact List.mem_cons_self _ _
  | cons a a1 ih =>
    intro r1 a2 r2 h1 h2 h
    cases a2 with
    | nil =>
      simp only [List.cons_append, List.nil_append, List.cons.injEq] at h
      exfalso
      apply h1
      rw [h.1]
      exact List.mem_cons_self _ _
    | cons b a2 =>
      simp only [List.cons_append, List.cons.injEq] at h
      obtain ⟨hab, htail⟩ := h
      rw [hab, ih r1 a2 r2 (fun hm => h1 (List.mem_cons_of_mem a hm))
        (fun hm => h2 (List.mem_cons_of_mem b hm)) htail]

/-- Sanitized characters are always in the allowed set. -/
theorem sanitizeChar_allowed (c : Char) : isAllowedUploadChar (sanitizeChar c) = true := by
  unfold sanitizeChar
  by_cases hcond : (isWordChar c || c == '.' || c == '-') = true
  · rw [if_pos hcond]
    exact hcond
  · rw [if_neg hcond]
    decide

/-- Every character of `safeBaseName` is in the allowed set. -/
theorem safeBaseName_allowed (f : String) :
    ∀ c ∈ (safeBaseName f).toList, isAllowedUploadChar c = true := by
  intro c hc
  unfold safeBaseName at hc
  by_cases hempty : String.mk (f.toList.map sanitizeChar) = ""
  · rw [if_pos hempty] at hc
    fin_cases hc <;> decide
  · rw [if_neg hempty] at hc
    have : (String.mk (f.toList.map sanitizeChar)).toList = f.toList.map sanitizeChar := rfl
    rw [this] at hc
    obtain ⟨c2, _, hc2⟩ := List.mem_map.mp hc
    rw [← hc2]
    exact sanitizeChar_allowed c2

/-- `safeBaseName` is never empty. -/
theorem safeBaseName_ne_nil (f : String) : (safeBaseName f).toList ≠ [] := by
  unfold safeBaseName
  by_cases hempty : String.mk (f.toList.map sanitizeChar) = ""
  · rw [if_pos hempty]
    decide
  · rw [if_neg hempty]
    intro hnil
    apply hempty
    apply string_toList_inj
    exact hnil

/-- The character list of the stored upload name: decimal digits of the
timestamp, a dash, then the sanitized base. -/
theorem uniqueUploadName_toList (now : Nat) (f : String) :
    (uniqueUploadName now f).toList
      = (Nat.repr now).toList ++ '-' :: (safeBaseName f).toList := by
  unfold uniqueUploadName
  rw [string_toList_append, string_toList_append]
  have h1 : (toString now : String) = Nat.repr now := rfl
  rw [h1, List.append_assoc]
  rfl

/-- A decimal digit character is allowed and is not a dash. -/
theorem isDigit_allowed (c : Char) (h : c.isDigit = true) :
    isAllowedUploadChar c = true ∧ c ≠ '-' ∧ c ≠ '/' ∧ c ≠ '\\' := by
  refine ⟨?_, ?_, ?_, ?_⟩
  · unfold isAllowedUploadChar isWordChar
    rw [h]
    simp
  · intro hc; rw [hc] at h; simp [Char.isDigit] at h
  · intro hc; rw [hc] at h; simp [Char.isDigit] at h
  · intro hc; rw [hc] at h; simp [Char.isDigit] at h

/-- A `contains` test fails for an absent element. -/
theorem contains_eq_false_of_not_mem {l : List Char} {a : Char} (h : a ∉ l) :
    l.contains a = false := by
  rw [Bool.eq_false_iff]
  intro hcon
  rw [List.contains_iff_exists_mem_beq] at hcon
  obtain ⟨b, hb, hbeq⟩ := hcon
  exact h ((eq_of_beq hbeq) ▸ hb)

/-- C7: every stored upload name is the timestamp, a hyphen, and the
sanitized client filename (every character outside `[A-Za-z0-9_.-]`
replaced by `_`, defaulting to `upload` when sanitization empties it); the
name consists only of allowed characters, never escapes the uploads
directory, and names from distinct timestamps are distinct, so every
stored asset filename is unique across uploads (sequential uploads occur
at distinct `Date.now()` values). -/
theorem upload_filename_safety :
    (∀ (now : Nat) (f : String),
        uniqueUploadName now f = toString now ++ "-" ++ safeBaseName f)
    ∧ (∀ f : String, safeBaseName f =
        if String.mk (f.toList.map sanitizeChar) = "" then "upload"
        else String.mk (f.toList.map sanitizeChar))
    ∧ (∀ (now : Nat) (f : String), ∀ c ∈ (uniqueUploadName now f).toList,
        isAllowedUploadChar c = true)
    ∧ (∀ (now : Nat) (f : String), escapesDir (uniqueUploadName now f) = false)
    ∧ (∀ (t1 t2 : Nat) (f1 f2 : String), t1 ≠ t2 →
        uniqueUploadName t1 f1 ≠ uniqueUploadName t2 f2)
    ∧ (∀ (fn d : String) (now : Nat) (ups : List String), fn ≠ "" → d ≠ "" →
        (postUploadHandler (some fn) (some d) now true ups).2
          = ups ++ [uniqueUploadName now fn]) := by
  have hchars : ∀ (now : Nat) (f : String), ∀ c ∈ (uniqueUploadName now f).toList,
      isAllowedUploadChar c = true := by
    intro now f c hc
    rw [uniqueUploadName_toList] at hc
    rcases List.mem_append.mp hc with hc | hc
    · exact (isDigit_allowed c (natRepr_isDigit now c hc)).1
    · rcases List.mem_cons.mp hc with hc | hc
      · rw [hc]; decide
      · exact safeBaseName_allowed f c hc
  have hnomem : ∀ (now : Nat) (f : String) (bad : Char),
      isAllowedUploadChar bad = false → bad ∉ (uniqueUploadName now f).toList := by
    intro now f bad hbad hmem
    have := hchars now f bad hmem
    rw [hbad] at this
    exact absurd this (by simp)
  have hlen3 : ∀ (now : Nat) (f : String), 3 ≤ (uniqueUploadName now f).toList.length := by
    intro now f
    rw [uniqueUploadName_toList]
    have h1 : 1 ≤ (Nat.repr now).toList.length :=
      Nat.one_le_iff_ne_zero.mpr (fun h => natRepr_ne_nil now (List.length_eq_zero.mp h))
    have h2 : 1 ≤ (safeBaseName f).toList.length :=
      Nat.one_le_iff_ne_zero.mpr (fun h => safeBaseName_ne_nil f (List.length_eq_zero.mp h))
    simp only [List.length_append, List.length_cons]
    omega
  refine ⟨fun _ _ => rfl, fun _ => rfl, hchars, ?_, ?_, ?_⟩
  · intro now f
    unfold escapesDir
    have hslash : ((uniqueUploadName now f).toList.contains '/') = false :=
      contains_eq_false_of_not_mem (hnomem now f '/' (by decide))
    have hback : ((uniqueUploadName now f).toList.contains '\\') = false :=
      contains_eq_false_of_not_mem (hnomem now f '\\' (by decide))
    have hlen := hlen3 now f
    have hne : ∀ s : String, s.toList.length ≤ 2 → (uniqueUploadName now f == s) = false := by
      intro s hs
      apply beq_eq_false_iff_ne.mpr
      intro h
      have := congrArg (fun x => x.toList.length) h
      simp only at this
      omega
    rw [hslash, hback, hne "" (by decide), hne "." (by decide), hne ".." (by decide)]
    rfl
  · intro t1 t2 f1 f2 hne heq
    apply hne
    have h := congrArg String.toList heq
    rw [uniqueUploadName_toList, uniqueUploadName_toList] at h
    have hnodash : ∀ n : Nat, ('-') ∉ (Nat.repr n).toList := by
      intro n hmem
      exact (isDigit_allowed '-' (natRepr_isDigit n '-' hmem)).2.1 rfl
    have hrepr := splitDash _ _ _ _ (hnodash t1) (hnodash t2) h
    exact natRepr_inj t1 t2 (string_toList_inj _ _ hrepr)
  · intro fn d now ups hfn hd
    simp only [postUploadHandler, hfn, hd]
    simp

/-- Witness for C7 at the specification's adversarial filename. -/
theorem upload_filename_safety_witness :
    escapesDir (uniqueUploadName 1712 "../../evil:name?.pdf") = false
    ∧ uniqueUploadName 1712 "../../evil:name?.pdf" ≠ uniqueUploadName 1713 "x"
    ∧ (postUploadHandler (some "../../evil:name?.pdf") (some "ZGF0YQ==") 1712 true []).2
        = [uniqueUploadName 1712 "../../evil:name?.pdf"] := by
  have h := upload_filename_safety
  refine ⟨h.2.2.2.1 1712 "../../evil:name?.pdf", ?_, ?_⟩
  · exact h.2.2.2.2.1 1712 1713 "../../evil:name?.pdf" "x" (by decide)
  · have := h.2.2.2.2.2 "../../evil:name?.pdf" "ZGF0YQ==" 1712 [] (by decide) (by decide)
    simpa using this

/-- C8: the setup parser slices from the first opening brace to the last
closing brace and parses that slice as JSON; with no well-ordered brace
pair, or a failing parse, it returns `none` and never throws; string fields
are accepted only when the JSON value is a string (trimmed), list fields
only when the value is a list with non-string entries dropped and entries
that trim to empty discarded; and on the concrete text of property P3 it
yields the title `Reform Era` and themes `law`, `politics`. -/
theorem parsePhaseSetup_resilience :
    (∀ text : String, text.toList.findIdx? (fun c => c = '{') = none →
        parsePhaseSetup text = none)
    ∧ (∀ text : String, text.toList.reverse.findIdx? (fun c => c = '}') = none →
        parsePhaseSetup text = none)
    ∧ (∀ (text : String) (s rIdx : Nat),
        text.toList.findIdx? (fun c => c = '{') = some s →
        text.toList.reverse.findIdx? (fun c => c = '}') = some rIdx →
        text.toList.length - 1 - rIdx ≤ s →
        parsePhaseSetup text = none)
    ∧ (∀ text : String, extractJsonObject text = none → parsePhaseSetup text = none)
    ∧ (∀ (text : String) (parsed : JVal), extractJsonObject text = some parsed →
        (jsTruthy parsed && jsTypeof parsed == "object") = true →
        parsePhaseSetup text = some
          { title := pickString parsed "title",
            range := pickString parsed "range",
            summary := pickString parsed "summary",
            subphaseTitle := pickString parsed "subphaseTitle",
            subphaseRange := pickString parsed "subphaseRange",
            subphasePrompt := pickString parsed "subphasePrompt",
            themes := pickList parsed "themes",
            questions := pickList parsed "questions" })
    ∧ (∀ (v : JVal) (key s : String), jsGet v key = some (.str s) →
        pickString v key = some (jsTrim s))
    ∧ (∀ (v : JVal) (key : String), (∀ s, jsGet v key ≠ some (.str s)) →
        pickString v key = none)
    ∧ (∀ (v : JVal) (key : String) (xs : List JVal), jsGet v key = some (.arr xs) →
        pickList v key = some
          ((((xs.filterMap (fun x => match x with | .str s => some s | _ => none)).map
            jsTrim)).filter (fun s => s != "")))
    ∧ (∀ (v : JVal) (key : String), (∀ xs, jsGet v key ≠ some (.arr xs)) →
        pickList v key = none)
    ∧ parsePhaseSetup exampleSetupText = some
        { title := some "Reform Era", range := none, summary := none,
          subphaseTitle := none, subphaseRange := none, subphasePrompt := none,
          themes := some ["law", "politics"], questions := none } := by
  have hnone : ∀ text : String, extractJsonObject text = none → parsePhaseSetup text = none := by
    intro text hext
    by_cases ht : text = ""
    · unfold parsePhaseSetup
      rw [if_pos ht]
    · unfold parsePhaseSetup
      rw [if_neg ht, hext]
  refine ⟨?_, ?_, ?_, hnone, ?_, ?_, ?_, ?_, ?_, ?_⟩
  · intro text h
    apply hnone
    unfold extractJsonObject
    dsimp only
    rw [h]
  · intro text h
    apply hnone
    unfold extractJsonObject
    dsimp only
    cases hf : text.toList.findIdx? (fun c => c = '{') with
    | none => rw [h]
    | some s => rw [h]
  · intro text s rIdx hf hr hle
    apply hnone
    unfold extractJsonObject
    dsimp only
    rw [hf, hr]
    dsimp only
    rw [if_pos hle]
  · intro text parsed hext htruthy
    have ht : text ≠ "" := by
      intro h0
      rw [h0] at hext
      rw [show extractJsonObject "" = none from rfl] at hext
      exact Option.noConfusion hext
    unfold parsePhaseSetup
    rw [if_neg ht, hext]
    dsimp only
    rw [if_pos htruthy]
  · intro v key s h
    unfold pickString
    rw [h]
  · intro v key h
    unfold pickString
    cases hg : jsGet v key with
    | none => rfl
    | some j =>
      cases j with
      | str s => exact absurd hg (h s)
      | null => rfl
      | bool b => rfl
      | num n => rfl
      | arr xs => rfl
      | obj fs => rfl
  · intro v key xs h
    unfold pickList
    rw [h]
  · intro v key h
    unfold pickList
    cases hg : jsGet v key with
    | none => rfl
    | some j =>
      cases j with
      | arr xs => exact absurd hg (h xs)
      | null => rfl
      | bool b => rfl
      | num n => rfl
      | str s => rfl
      | obj fs => rfl
  · rfl

/-- Witness for C8: a text with no braces parses to nothing. -/
theorem parsePhaseSetup_resilience_witness :
    parsePhaseSetup "no structured result here" = none :=
  parsePhaseSetup_resilience.1 "no structured result here" rfl
